import Mathlib

/-
Verification of the appsync collection-sync protocol and storage engine.

The repository ships its test suite and application wiring; the storage
backends (appsync.storage), the HTTP views (appsync.views), the poll-advisory
cache (appsync.cache) and the auth middleware (CatchAuthError) are specified
in spec.md. The definitions below are therefore modelled from the spec: data
types and operations follow sections 3, 4.1, 4.2, 4.4, 4.5 and 6 of spec.md,
with timestamps as natural-number ticks (the spec fixes only a minimum
resolution, 10 ms) and uuids drawn from a fresh counter.
-/

namespace AppSync

/-- Modelled from the spec (section 3, appsync.storage is not in the sources):
an App Record, keyed by `origin`, with its authoritative ordering key
`last_modified`. Opaque metadata fields are not observable by any claim and
are omitted. -/
structure AppRecord where
  origin : String
  last_modified : Nat
deriving DecidableEq

/-- Modelled from the spec (section 3): a Collection has an opaque `uuid`
(regenerated on recreation after deletion), a `last_modified` high-water mark,
and a set of App Records unique by `origin`. -/
structure Collection where
  uuid : Nat
  last_modified : Nat
  apps : List AppRecord
deriving DecidableEq

/-- Modelled from the spec (section 3): the server-side state of one
collection name: never created, deleted (tombstone), or live. -/
inductive CollState where
  | absent
  | deleted
  | live (c : Collection)
deriving DecidableEq

/-- A collection key: (verified user email, collection name). -/
abbrev CollKey := String × String

/-- Association-list lookup for collection states; a missing key is an
absent collection. -/
def lookupColl : List (CollKey × CollState) → CollKey → CollState
  | [], _ => .absent
  | (k', v) :: rest, k => if k' = k then v else lookupColl rest k

/-- Association-list store: bind `k` to `v`, dropping any previous binding. -/
def storeColl (l : List (CollKey × CollState)) (k : CollKey) (v : CollState) :
    List (CollKey × CollState) :=
  (k, v) :: l.filter fun p => !decide (p.1 = k)

/-- Modelled from the spec (sections 3 and 4.2, appsync.storage is not in the
sources): the backend-owned state: per-key collection states, a counter
supplying fresh uuids, and the server clock in ticks. -/
structure ServerState where
  colls : List (CollKey × CollState)
  nextUuid : Nat
  clock : Nat
deriving DecidableEq

def ServerState.lookup (s : ServerState) (k : CollKey) : CollState :=
  lookupColl s.colls k

/-- Modelled from the spec (section 4.1): the result of `read_since`: either
the tombstone answer, whose body has the single key `collection_deleted`
(value true) and nothing else, or a delta `{since, until, applications,
uuid}`; a never-created collection has no uuid yet. -/
inductive ReadResult where
  | collectionDeleted
  | data (since untilTs : Nat) (applications : List AppRecord) (uuid : Option Nat)
deriving DecidableEq

/-- The uuid observed by a read, when one is observed. -/
def ReadResult.uuid : ReadResult → Option Nat
  | .collectionDeleted => none
  | .data _ _ _ u => u

/-- Modelled from the spec (section 4.1, appsync.storage is not in the
sources): `read_since` returns all App Records with `last_modified > since`
plus the current timestamp `until`; a deleted collection answers
`CollectionDeleted`; a never-created collection answers a fresh empty delta. -/
def read_since (s : ServerState) (k : CollKey) (since : Nat) : ReadResult :=
  match s.lookup k with
  | .deleted => .collectionDeleted
  | .absent => .data since s.clock [] none
  | .live c =>
      .data since s.clock (c.apps.filter fun a => decide (since < a.last_modified))
        (some c.uuid)

/-- Modelled from the spec (section 4.1): outcome of a `write`: the
optimistic-concurrency rejection, or success carrying the collection's
uuid and the new `until` timestamp. -/
inductive WriteOutcome where
  | preconditionFailed
  | ok (uuid : Nat) (untilTs : Nat)
deriving DecidableEq

/-- Modelled from the spec (section 4.1): the optimistic-concurrency guard:
a supplied `last_get` strictly below the collection's current `last_modified`
fails the precondition. -/
def precondFails (lastGet : Option Nat) (lm : Nat) : Bool :=
  match lastGet with
  | some lg => decide (lg < lm)
  | none => false

/-- Every written record receives the write's new timestamp. -/
def stamp (apps : List AppRecord) (ts : Nat) : List AppRecord :=
  apps.map fun a => { a with last_modified := ts }

/-- Upsert one record keyed by `origin`: replace the record with the same
origin, else append. -/
def upsertOne (cur : List AppRecord) (a : AppRecord) : List AppRecord :=
  if cur.any fun b => decide (b.origin = a.origin) then
    cur.map fun b => if b.origin = a.origin then a else b
  else
    cur ++ [a]

/-- Upsert a batch of records, left to right. -/
def upsertAll (cur : List AppRecord) (apps : List AppRecord) : List AppRecord :=
  apps.foldl upsertOne cur

/-- The collection produced by a successful write: kept uuid (or the fresh
one), the new high-water mark, and the upserted records. -/
def writtenColl (uuid ts : Nat) (cur newApps : List AppRecord) : Collection :=
  ⟨uuid, ts, upsertAll cur (stamp newApps ts)⟩

/-- Modelled from the spec (sections 4.1 and 4.2): a write that (re)creates
the collection: fresh uuid from the counter, new timestamp strictly above
the clock, records stamped with it; the clock advances to the new
timestamp so that later reads treat "now" consistently. -/
def writeFresh (s : ServerState) (k : CollKey) (apps : List AppRecord) :
    WriteOutcome × ServerState :=
  (.ok s.nextUuid (s.clock + 1),
   { colls := storeColl s.colls k (.live (writtenColl s.nextUuid (s.clock + 1) [] apps)),
     nextUuid := s.nextUuid + 1,
     clock := s.clock + 1 })

/-- Modelled from the spec (sections 4.1 and 4.2, appsync.storage is not in
the sources): `write` checks the `last_get` precondition against the
collection's current `last_modified`, rejecting with no change on failure;
on success it stamps every record with
`max (current last_modified) (wall clock) + 1`, upserts by origin, keeps the
uuid, and advances the clock to the new timestamp. A deleted or never-created
collection is (re)created with a fresh uuid. -/
def write (s : ServerState) (k : CollKey) (apps : List AppRecord)
    (lastGet : Option Nat) : WriteOutcome × ServerState :=
  match s.lookup k with
  | .live c =>
      if precondFails lastGet c.last_modified then
        (.preconditionFailed, s)
      else
        (.ok c.uuid (max c.last_modified s.clock + 1),
         { colls := storeColl s.colls k
             (.live (writtenColl c.uuid (max c.last_modified s.clock + 1) c.apps apps)),
           nextUuid := s.nextUuid,
           clock := max c.last_modified s.clock + 1 })
  | .deleted => writeFresh s k apps
  | .absent => writeFresh s k apps

/-- Modelled from the spec (section 4.1): `delete` tombstones the collection;
the reason is opaque audit metadata and is not interpreted. -/
def delete (s : ServerState) (k : CollKey) (reason : String) : ServerState :=
  { s with colls := storeColl s.colls k .deleted }

/- ### Operation traces

The spec's observable history of a collection is a sequence of storage
operations; reads do not change state, so a trace is made of writes,
deletes, and clock ticks (time passing between requests). -/

/-- A state-changing storage operation (or the passage of time). -/
inductive Op where
  | write (k : CollKey) (apps : List AppRecord) (lastGet : Option Nat)
  | delete (k : CollKey) (reason : String)
  | tick
deriving DecidableEq

/-- Whether an operation is a delete of the collection `k`. -/
def Op.isDeleteOf : Op → CollKey → Bool
  | .delete k' _, k => decide (k' = k)
  | _, _ => false

/-- Whether an operation is a write to the collection `k`. -/
def Op.isWriteTo : Op → CollKey → Bool
  | .write k' _ _, k => decide (k' = k)
  | _, _ => false

/-- Apply one operation to the server state. -/
def applyOp (s : ServerState) : Op → ServerState
  | .write k apps lg => (AppSync.write s k apps lg).2
  | .delete k r => AppSync.delete s k r
  | .tick => { s with clock := s.clock + 1 }

/-- Apply a sequence of operations, left to right. -/
def applyOps (s : ServerState) (ops : List Op) : ServerState :=
  ops.foldl applyOp s

/-- Uuids of live collections are always below the fresh-uuid counter. -/
def CollState.uuidBelow (nx : Nat) : CollState → Bool
  | .live c => decide (c.uuid < nx)
  | _ => true

/-- Invariant: every live collection's uuid was drawn from the counter. -/
def ServerState.UuidBound (s : ServerState) : Prop :=
  ∀ p ∈ s.colls, CollState.uuidBelow s.nextUuid p.2 = true

/-- A collection state respecting the `last_modified` high-water mark. -/
def CollState.hwm : CollState → Bool
  | .live c => c.apps.all fun a => decide (a.last_modified ≤ c.last_modified)
  | _ => true

/-- Invariant: in every live collection, each record's `last_modified` is at
most the collection's `last_modified` high-water mark. -/
def ServerState.WF (s : ServerState) : Prop :=
  ∀ p ∈ s.colls, CollState.hwm p.2 = true

instance (s : ServerState) : Decidable s.UuidBound :=
  inferInstanceAs (Decidable (∀ p ∈ s.colls, CollState.uuidBelow s.nextUuid p.2 = true))

instance (s : ServerState) : Decidable s.WF :=
  inferInstanceAs (Decidable (∀ p ∈ s.colls, CollState.hwm p.2 = true))

/- ### Endpoint logic, modelled from the spec

The HTTP views, the auth middleware and the poll-advisory cache are
specified in sections 4.4, 4.5, 6 and 7 of spec.md but their code
(appsync.views, appsync.cache, CatchAuthError) is not in the sources; the
definitions below model them from the spec. -/

/-- Modelled from the spec (sections 4.4 and 6): the body of a protocol
response, one constructor per body shape an endpoint can produce. -/
inductive Body where
  | empty
  | text (s : String)
  | verifyOkay (email audience : String)
  | readResult (r : ReadResult)
  | writeAck (uuid untilTs : Nat)
  | deleteAck
deriving DecidableEq

/-- An HTTP-level response: status code, body, response headers. -/
structure Response where
  status : Nat
  body : Body
  headers : List (String × String)
deriving DecidableEq

/-- Modelled from the spec (section 6): the recognized configuration
surface that the claims observe: the global retry-after value,
defaulting to "120" seconds. -/
structure Config where
  retry_after : String := "120"
deriving DecidableEq

/-- The configuration with every option left at its default. -/
def defaultConfig : Config := {}

/-- Modelled from the spec (sections 4.4 and 7, CatchAuthError is not in the
sources): any backend-raised ServerError is mapped to 503 with a Retry-After
header sourced from static configuration, not computed dynamically. -/
def serverErrorResponse (cfg : Config) : Response :=
  { status := 503, body := .empty, headers := [("Retry-After", cfg.retry_after)] }

/-- Modelled from the spec (section 6): an identity assertion as the dummy
verifier observes it: the asserted email, the audience it was made for, and
whether its signature is valid. -/
structure Assertion where
  email : String
  audience : String
  sigValid : Bool
deriving DecidableEq

/-- Modelled from the spec (section 6): an authorization token derived from
a successful /verify, carried on collection requests. -/
structure Token where
  email : String
  valid : Bool
deriving DecidableEq

/-- Modelled from the spec (sections 6 and 7, appsync.views is not in the
sources): POST /verify. Missing fields give 400; a backend ServerError gives
the static 503 response; an invalid assertion signature or a mismatched
audience gives 401; otherwise the verified identity is returned. -/
def postVerify (cfg : Config) (backendBroken : Bool)
    (assertion : Option Assertion) (audience : Option String) : Response :=
  match assertion, audience with
  | some a, some aud =>
      if backendBroken then serverErrorResponse cfg
      else if a.sigValid && decide (a.audience = aud) then
        { status := 200, body := .verifyOkay a.email aud, headers := [] }
      else
        { status := 401, body := .empty, headers := [] }
  | _, _ => { status := 400, body := .empty, headers := [] }

/-- Modelled from the spec (section 4.5, appsync.cache is not in the
sources): the poll-advisory cache get operation over the cache's entries. -/
def cacheGet : List (String × Nat) → String → Option Nat
  | [], _ => none
  | (k', v) :: rest, k => if k' = k then some v else cacheGet rest k

/-- Modelled from the spec (sections 4.4 and 4.5): the advisory header
decoration: an unconfigured or unreachable cache (`none`; its errors are
swallowed) or a missing key yields no header, a cached value `v` yields the
X-Sync-Poll header with the decimal rendering of `v`. -/
def pollHeaders (cache : Option (List (String × Nat))) : List (String × String) :=
  match cache with
  | none => []
  | some entries =>
      match cacheGet entries "X-Sync-Poll" with
      | none => []
      | some v => [("X-Sync-Poll", toString v)]

/-- Modelled from the spec (sections 4.4 and 6, appsync.views is not in the
sources): GET /collections/{email}/{collection}. An absent or invalid token
gives 401; otherwise the `read_since` result is returned with the advisory
header decoration. -/
def getCollection (s : ServerState) (cache : Option (List (String × Nat)))
    (token : Option Token) (k : CollKey) (since : Nat) : Response :=
  match token with
  | none => { status := 401, body := .empty, headers := [] }
  | some t =>
      if t.valid then
        { status := 200, body := .readResult (read_since s k since),
          headers := pollHeaders cache }
      else
        { status := 401, body := .empty, headers := [] }

/-- Modelled from the spec (sections 4.4 and 6, appsync.views is not in the
sources): POST /collections/{email}/{collection}. An absent or invalid token
gives 401; a failed precondition gives 412 with no body mutation; success
returns the collection's uuid and `until`. -/
def postCollection (s : ServerState) (token : Option Token) (k : CollKey)
    (apps : List AppRecord) (lastget : Option Nat) : Response × ServerState :=
  match token with
  | none => ({ status := 401, body := .empty, headers := [] }, s)
  | some t =>
      if t.valid then
        match write s k apps lastget with
        | (.preconditionFailed, s') =>
            ({ status := 412, body := .empty, headers := [] }, s')
        | (.ok u ts, s') =>
            ({ status := 200, body := .writeAck u ts, headers := [] }, s')
      else
        ({ status := 401, body := .empty, headers := [] }, s)

/-- Modelled from the spec (section 6): GET /__heartbeat__, 200 with literal
body OK exactly when the backend health check succeeds. -/
def heartbeat (cfg : Config) (healthy : Bool) : Response :=
  if healthy then { status := 200, body := .text "OK", headers := [] }
  else serverErrorResponse cfg

/- ### Concrete fixtures (the test suite's collection and states) -/

/-- The collection key used throughout the repository's test suite. -/
def kTest : CollKey := ("t@m.com", "blah")

/-- A valid token for the test user. -/
def tokTest : Token := ⟨"t@m.com", true⟩

/-- A server state with no collection ever created. -/
def sEmpty : ServerState := ⟨[], 0, 0⟩

/-- A live test collection with one record at the high-water mark. -/
def cW1 : Collection := ⟨0, 5, [⟨"app1", 5⟩]⟩

/-- A server state holding the live test collection. -/
def sW1 : ServerState := ⟨[(kTest, .live cW1)], 1, 5⟩

/-- The state after writing one more record to `sW1`. -/
def sW1' : ServerState :=
  ⟨[(kTest, .live ⟨0, 6, [⟨"app1", 5⟩, ⟨"b", 6⟩]⟩)], 1, 6⟩

end AppSync

namespace AppSync

/- ### Basic lookup/store lemmas -/

theorem lookupColl_filter_ne (l : List (CollKey × CollState)) (k' k : CollKey)
    (h : k' ≠ k) :
    lookupColl (l.filter fun p => !decide (p.1 = k')) k = lookupColl l k := by
  induction l with
  | nil => rfl
  | cons p rest ih =>
      obtain ⟨pk, pv⟩ := p
      by_cases hpk : pk = k'
      · subst hpk
        have hne : pk ≠ k := h
        simp [lookupColl, hne, ih]
      · by_cases hk : pk = k
        · subst hk
          simp [lookupColl, hpk]
        · simp [lookupColl, hpk, hk, ih]

theorem lookupColl_store_self (l : List (CollKey × CollState)) (k : CollKey)
    (v : CollState) : lookupColl (storeColl l k v) k = v := by
  simp [storeColl, lookupColl]

theorem lookupColl_store_other (l : List (CollKey × CollState)) (k' k : CollKey)
    (v : CollState) (h : k' ≠ k) :
    lookupColl (storeColl l k' v) k = lookupColl l k := by
  rw [storeColl]
  rw [lookupColl]
  rw [if_neg h]
  exact lookupColl_filter_ne l k' k h

theorem lookupColl_mem (l : List (CollKey × CollState)) (k : CollKey)
    (v : CollState) (h : lookupColl l k = v) : v = .absent ∨ (k, v) ∈ l := by
  induction l with
  | nil => exact Or.inl h.symm
  | cons p rest ih =>
      obtain ⟨pk, pv⟩ := p
      by_cases hk : pk = k
      · subst hk
        simp [lookupColl] at h
        exact Or.inr (by simp [h])
      · simp [lookupColl, hk] at h
        rcases ih h with ha | hm
        · exact Or.inl ha
        · exact Or.inr (by simp [hm])

/- ### Equation lemmas for write, and lookup preservation -/

theorem write_live_eq (s : ServerState) (k : CollKey) (apps : List AppRecord)
    (lg : Option Nat) (c : Collection) (hc : s.lookup k = .live c) :
    write s k apps lg =
      if precondFails lg c.last_modified then (.preconditionFailed, s)
      else
        (.ok c.uuid (max c.last_modified s.clock + 1),
         { colls := storeColl s.colls k
             (.live (writtenColl c.uuid (max c.last_modified s.clock + 1) c.apps apps)),
           nextUuid := s.nextUuid,
           clock := max c.last_modified s.clock + 1 }) := by
  unfold write
  rw [hc]

theorem write_deleted_eq (s : ServerState) (k : CollKey) (apps : List AppRecord)
    (lg : Option Nat) (hc : s.lookup k = .deleted) :
    write s k apps lg = writeFresh s k apps := by
  unfold write
  rw [hc]

theorem write_absent_eq (s : ServerState) (k : CollKey) (apps : List AppRecord)
    (lg : Option Nat) (hc : s.lookup k = .absent) :
    write s k apps lg = writeFresh s k apps := by
  unfold write
  rw [hc]

theorem delete_lookup_self (s : ServerState) (k : CollKey) (r : String) :
    (delete s k r).lookup k = .deleted := by
  simp [delete, ServerState.lookup, lookupColl_store_self]

theorem delete_lookup_other (s : ServerState) (k' k : CollKey) (r : String)
    (h : k' ≠ k) : (delete s k' r).lookup k = s.lookup k := by
  simp [delete, ServerState.lookup, lookupColl_store_other _ _ _ _ h]

theorem write_snd_lookup_other (s : ServerState) (k' k : CollKey)
    (apps : List AppRecord) (lg : Option Nat) (h : k' ≠ k) :
    (write s k' apps lg).2.lookup k = s.lookup k := by
  cases hc : s.lookup k' with
  | live c =>
      rw [write_live_eq s k' apps lg c hc]
      by_cases hp : precondFails lg c.last_modified
      · rw [if_pos hp]
      · rw [if_neg hp]
        simp [ServerState.lookup, lookupColl_store_other _ _ _ _ h]
  | deleted =>
      rw [write_deleted_eq s k' apps lg hc]
      simp [writeFresh, ServerState.lookup, lookupColl_store_other _ _ _ _ h]
  | absent =>
      rw [write_absent_eq s k' apps lg hc]
      simp [writeFresh, ServerState.lookup, lookupColl_store_other _ _ _ _ h]

/- ### Invariant access -/

theorem uuid_lt_of_lookup (s : ServerState) (k : CollKey) (c : Collection)
    (hub : s.UuidBound) (h : s.lookup k = .live c) : c.uuid < s.nextUuid := by
  rcases lookupColl_mem s.colls k (.live c) h with ha | hm
  · simp at ha
  · have hb := hub _ hm
    simpa [CollState.uuidBelow] using hb

theorem hwm_of_lookup (s : ServerState) (k : CollKey) (c : Collection)
    (hwf : s.WF) (h : s.lookup k = .live c) :
    ∀ a ∈ c.apps, a.last_modified ≤ c.last_modified := by
  rcases lookupColl_mem s.colls k (.live c) h with ha | hm
  · simp at ha
  · have hb := hwf _ hm
    simpa [CollState.hwm] using hb

/- ### Trace lemmas: uuid stability and tombstone persistence -/

theorem applyOp_keeps_live_uuid (s : ServerState) (k : CollKey) (c : Collection)
    (op : Op) (hop : op.isDeleteOf k = false) (h : s.lookup k = .live c) :
    ∃ c', (applyOp s op).lookup k = .live c' ∧ c'.uuid = c.uuid := by
  cases op with
  | tick => exact ⟨c, h, rfl⟩
  | delete k' r =>
      have hne : k' ≠ k := by simpa [Op.isDeleteOf] using hop
      exact ⟨c, by rw [applyOp, delete_lookup_other s k' k r hne]; exact h, rfl⟩
  | write k' apps lg =>
      by_cases hk : k' = k
      · subst hk
        rw [applyOp, write_live_eq s k' apps lg c h]
        by_cases hp : precondFails lg c.last_modified
        · rw [if_pos hp]
          exact ⟨c, h, rfl⟩
        · rw [if_neg hp]
          refine ⟨writtenColl c.uuid (max c.last_modified s.clock + 1) c.apps apps,
            ?_, rfl⟩
          simp [ServerState.lookup, lookupColl_store_self]
      · exact ⟨c, by
          rw [applyOp, write_snd_lookup_other s k' k apps lg hk]; exact h, rfl⟩

theorem applyOps_keeps_live_uuid (s : ServerState) (k : CollKey)
    (c : Collection) (ops : List Op)
    (hops : ∀ op ∈ ops, op.isDeleteOf k = false) (h : s.lookup k = .live c) :
    ∃ c', (applyOps s ops).lookup k = .live c' ∧ c'.uuid = c.uuid := by
  induction ops generalizing s c with
  | nil => exact ⟨c, h, rfl⟩
  | cons op rest ih =>
      obtain ⟨c1, h1, hu1⟩ := applyOp_keeps_live_uuid s k c op (hops op (by simp)) h
      obtain ⟨c2, h2, hu2⟩ := ih (applyOp s op) c1
        (fun o ho => hops o (by simp [ho])) h1
      exact ⟨c2, by simpa [applyOps] using h2, hu2.trans hu1⟩

theorem applyOp_keeps_deleted (s : ServerState) (k : CollKey) (op : Op)
    (hop : op.isWriteTo k = false) (h : s.lookup k = .deleted) :
    (applyOp s op).lookup k = .deleted := by
  cases op with
  | tick => exact h
  | delete k' r =>
      by_cases hk : k' = k
      · subst hk
        exact delete_lookup_self s k' r
      · rw [applyOp, delete_lookup_other s k' k r hk]; exact h
  | write k' apps lg =>
      have hne : k' ≠ k := by simpa [Op.isWriteTo] using hop
      rw [applyOp, write_snd_lookup_other s k' k apps lg hne]; exact h

theorem applyOps_keeps_deleted (s : ServerState) (k : CollKey) (ops : List Op)
    (hops : ∀ op ∈ ops, op.isWriteTo k = false) (h : s.lookup k = .deleted) :
    (applyOps s ops).lookup k = .deleted := by
  induction ops generalizing s with
  | nil => exact h
  | cons op rest ih =>
      have h1 := applyOp_keeps_deleted s k op (hops op (by simp)) h
      have h2 := ih (applyOp s op) (fun o ho => hops o (by simp [ho])) h1
      simpa [applyOps] using h2

/- ### Upsert, stamp and filter lemmas -/

theorem mem_upsertOne (cur : List AppRecord) (x a : AppRecord)
    (h : a ∈ upsertOne cur x) : a ∈ cur ∨ a = x := by
  unfold upsertOne at h
  by_cases hc : (cur.any fun b => decide (b.origin = x.origin)) = true
  · rw [if_pos hc] at h
    obtain ⟨b, hb, hbe⟩ := List.mem_map.mp h
    by_cases hbo : b.origin = x.origin
    · rw [if_pos hbo] at hbe
      exact Or.inr hbe.symm
    · rw [if_neg hbo] at hbe
      exact Or.inl (hbe ▸ hb)
  · rw [if_neg hc] at h
    rcases List.mem_append.mp h with h1 | h2
    · exact Or.inl h1
    · simp only [List.mem_singleton] at h2
      exact Or.inr h2

theorem mem_upsertAll (cur xs : List AppRecord) (a : AppRecord)
    (h : a ∈ upsertAll cur xs) : a ∈ cur ∨ a ∈ xs := by
  induction xs generalizing cur with
  | nil => exact Or.inl h
  | cons x rest ih =>
      have h' : a ∈ upsertAll (upsertOne cur x) rest := by
        simpa [upsertAll] using h
      rcases ih (upsertOne cur x) h' with h1 | h2
      · rcases mem_upsertOne cur x a h1 with hcur | hx
        · exact Or.inl hcur
        · exact Or.inr (by simp [hx])
      · exact Or.inr (by simp [h2])

theorem upsertAll_of_disjoint (cur xs : List AppRecord)
    (hdisj : ∀ x ∈ xs, ∀ b ∈ cur, ¬b.origin = x.origin)
    (hnd : (xs.map AppRecord.origin).Nodup) :
    upsertAll cur xs = cur ++ xs := by
  induction xs generalizing cur with
  | nil => simp [upsertAll]
  | cons x rest ih =>
      have hnd' : (x.origin :: rest.map AppRecord.origin).Nodup := by
        rw [List.map_cons] at hnd
        exact hnd
      have hnot : x.origin ∉ rest.map AppRecord.origin :=
        (List.nodup_cons.mp hnd').1
      have hndrest : (rest.map AppRecord.origin).Nodup :=
        (List.nodup_cons.mp hnd').2
      have hany : (cur.any fun b => decide (b.origin = x.origin)) = false := by
        rw [List.any_eq_false]
        intro b hb
        simp [hdisj x (by simp) b hb]
      have h1 : upsertOne cur x = cur ++ [x] := by
        rw [upsertOne, hany]
        simp
      have hstep : upsertAll cur (x :: rest) = upsertAll (cur ++ [x]) rest := by
        simp [upsertAll, h1]
      have hdisj' : ∀ y ∈ rest, ∀ b ∈ cur ++ [x], ¬b.origin = y.origin := by
        intro y hy b hb
        rcases List.mem_append.mp hb with hbc | hbx
        · exact hdisj y (by simp [hy]) b hbc
        · simp only [List.mem_singleton] at hbx
          intro he
          have hxy : x.origin = y.origin := by rw [← hbx]; exact he
          have hmem : y.origin ∈ rest.map AppRecord.origin :=
            List.mem_map.mpr ⟨y, hy, rfl⟩
          exact hnot (by rw [hxy]; exact hmem)
      rw [hstep, ih (cur ++ [x]) hdisj' hndrest]
      simp

theorem stamp_map_origin (apps : List AppRecord) (ts : Nat) :
    (stamp apps ts).map AppRecord.origin = apps.map AppRecord.origin := by
  induction apps with
  | nil => rfl
  | cons a rest ih =>
      simp only [stamp, List.map_cons] at ih ⊢
      rw [ih]

theorem stamp_length (apps : List AppRecord) (ts : Nat) :
    (stamp apps ts).length = apps.length := by
  simp [stamp]

theorem mem_stamp (apps : List AppRecord) (ts : Nat) (a : AppRecord)
    (h : a ∈ stamp apps ts) : a.last_modified = ts := by
  obtain ⟨b, _, hbe⟩ := List.mem_map.mp h
  rw [← hbe]

theorem filter_false_nil (p : AppRecord → Bool) (l : List AppRecord)
    (h : ∀ a ∈ l, p a = false) : l.filter p = [] := by
  induction l with
  | nil => rfl
  | cons a rest ih =>
      rw [List.filter_cons, h a (by simp)]
      simp only [Bool.false_eq_true, if_false]
      exact ih fun b hb => h b (by simp [hb])

theorem filter_true_self (p : AppRecord → Bool) (l : List AppRecord)
    (h : ∀ a ∈ l, p a = true) : l.filter p = l := by
  induction l with
  | nil => rfl
  | cons a rest ih =>
      rw [List.filter_cons, h a (by simp)]
      simp only [if_true]
      rw [ih fun b hb => h b (by simp [hb])]

/-- The state after a successful write: the clock has advanced to the new
`until` timestamp and the collection is live, carrying the returned uuid,
the new high-water mark, and only records at or below it. -/
theorem write_ok_shape (s : ServerState) (k : CollKey) (apps : List AppRecord)
    (lg : Option Nat) (u ts : Nat) (s' : ServerState)
    (hwf : s.WF) (hw : write s k apps lg = (.ok u ts, s')) :
    s'.clock = ts ∧ ∃ c', s'.lookup k = .live c' ∧ c'.uuid = u
      ∧ c'.last_modified = ts ∧ ∀ a ∈ c'.apps, a.last_modified ≤ ts := by
  cases hc : s.lookup k with
  | live c =>
      rw [write_live_eq s k apps lg c hc] at hw
      by_cases hp : precondFails lg c.last_modified = true
      · rw [if_pos hp] at hw
        simp at hw
      · rw [if_neg hp] at hw
        simp only [Prod.mk.injEq, WriteOutcome.ok.injEq] at hw
        obtain ⟨⟨hu, hts⟩, hs⟩ := hw
        subst hs
        refine ⟨hts, writtenColl c.uuid (max c.last_modified s.clock + 1) c.apps apps,
          ?_, hu, hts, ?_⟩
        · simp [ServerState.lookup, lookupColl_store_self]
        · intro a ha
          rcases mem_upsertAll c.apps (stamp apps (max c.last_modified s.clock + 1)) a ha
            with hcur | hst
          · have h1 := hwm_of_lookup s k c hwf hc a hcur
            have h2 : c.last_modified ≤ max c.last_modified s.clock + 1 :=
              Nat.le_succ_of_le (Nat.le_max_left _ _)
            exact hts ▸ Nat.le_trans h1 h2
          · have h1 := mem_stamp apps (max c.last_modified s.clock + 1) a hst
            exact hts ▸ Nat.le_of_eq h1
  | deleted =>
      rw [write_deleted_eq s k apps lg hc] at hw
      unfold writeFresh at hw
      simp only [Prod.mk.injEq, WriteOutcome.ok.injEq] at hw
      obtain ⟨⟨hu, hts⟩, hs⟩ := hw
      subst hs
      refine ⟨hts, writtenColl s.nextUuid (s.clock + 1) [] apps, ?_, hu, hts, ?_⟩
      · simp [ServerState.lookup, lookupColl_store_self]
      · intro a ha
        rcases mem_upsertAll [] (stamp apps (s.clock + 1)) a ha with hcur | hst
        · simp at hcur
        · have h1 := mem_stamp apps (s.clock + 1) a hst
          exact hts ▸ Nat.le_of_eq h1
  | absent =>
      rw [write_absent_eq s k apps lg hc] at hw
      unfold writeFresh at hw
      simp only [Prod.mk.injEq, WriteOutcome.ok.injEq] at hw
      obtain ⟨⟨hu, hts⟩, hs⟩ := hw
      subst hs
      refine ⟨hts, writtenColl s.nextUuid (s.clock + 1) [] apps, ?_, hu, hts, ?_⟩
      · simp [ServerState.lookup, lookupColl_store_self]
      · intro a ha
        rcases mem_upsertAll [] (stamp apps (s.clock + 1)) a ha with hcur | hst
        · simp at hcur
        · have h1 := mem_stamp apps (s.clock + 1) a hst
          exact hts ▸ Nat.le_of_eq h1

/-- The uuid a read observes is the live collection's uuid. -/
theorem read_since_uuid_of_live (s : ServerState) (k : CollKey) (c : Collection)
    (h : s.lookup k = .live c) (t : Nat) :
    (read_since s k t).uuid = some c.uuid := by
  unfold read_since
  rw [h]
  exact rfl

/-- Reading a live collection returns the delta above `t` with the
collection's uuid. -/
theorem read_since_live_eq (s : ServerState) (k : CollKey) (c : Collection)
    (h : s.lookup k = .live c) (t : Nat) :
    read_since s k t
      = .data t s.clock (c.apps.filter fun a => decide (t < a.last_modified))
          (some c.uuid) := by
  unfold read_since
  rw [h]

/- ### Claim theorems -/

/-- Claim C1: a write whose supplied last_get is strictly below the
collection's current last_modified is rejected with PreconditionFailed,
surfaced as HTTP status 412, and the stored state is unchanged. -/
theorem stale_write_rejected (s : ServerState) (k : CollKey) (c : Collection)
    (t : Token) (apps : List AppRecord) (lg : Nat)
    (hc : s.lookup k = .live c) (hlt : lg < c.last_modified)
    (ht : t.valid = true) :
    write s k apps (some lg) = (.preconditionFailed, s)
      ∧ (postCollection s (some t) k apps (some lg)).1.status = 412
      ∧ (postCollection s (some t) k apps (some lg)).2 = s := by
  have hp : precondFails (some lg) c.last_modified = true := by
    simp [precondFails, hlt]
  have hw : write s k apps (some lg) = (.preconditionFailed, s) := by
    rw [write_live_eq s k apps (some lg) c hc, if_pos hp]
  refine ⟨hw, ?_, ?_⟩ <;> simp [postCollection, ht, hw]

/-- Witness for C1: a concrete stale write against the test collection. -/
theorem stale_write_rejected_witness :
    write sW1 kTest [⟨"app1", 0⟩] (some 3) = (.preconditionFailed, sW1)
      ∧ (postCollection sW1 (some tokTest) kTest [⟨"app1", 0⟩] (some 3)).1.status = 412
      ∧ (postCollection sW1 (some tokTest) kTest [⟨"app1", 0⟩] (some 3)).2 = sW1 :=
  stale_write_rejected sW1 kTest cW1 tokTest [⟨"app1", 0⟩] 3
    (by decide) (by decide) (by decide)

/-- Claim C2: the uuid observed by reads changes exactly on
delete-and-recreate: across any delete-free operation sequence every read
observes the original uuid, and the uuid observed after a delete followed by
a recreating write differs from the uuid before the deletion. -/
theorem uuid_changes_iff_recreated (s : ServerState) (k : CollKey)
    (c : Collection) (ops : List Op) (r : String) (apps : List AppRecord)
    (hub : s.UuidBound) (hc : s.lookup k = .live c)
    (hops : ∀ op ∈ ops, op.isDeleteOf k = false) :
    (∀ t, (read_since (applyOps s ops) k t).uuid = some c.uuid)
      ∧ ∃ u ts s', write (delete s k r) k apps none = (.ok u ts, s')
          ∧ u ≠ c.uuid ∧ ∀ t, (read_since s' k t).uuid = some u := by
  constructor
  · intro t
    obtain ⟨c', h', hu⟩ := applyOps_keeps_live_uuid s k c ops hops hc
    rw [read_since_uuid_of_live _ _ _ h' t, hu]
  · have hlt := uuid_lt_of_lookup s k c hub hc
    have hdel := delete_lookup_self s k r
    refine ⟨s.nextUuid, s.clock + 1, (writeFresh (delete s k r) k apps).2, ?_, ?_, ?_⟩
    · rw [write_deleted_eq _ _ _ _ hdel]
      exact rfl
    · exact fun he => Nat.ne_of_lt hlt he.symm
    · intro t
      have hlk : (writeFresh (delete s k r) k apps).2.lookup k
          = .live (writtenColl s.nextUuid (s.clock + 1) [] apps) := by
        simp [writeFresh, delete, ServerState.lookup, lookupColl_store_self]
      rw [read_since_uuid_of_live _ _ _ hlk t]
      exact rfl

/-- Witness for C2: the test collection keeps uuid 0 across a delete-free
trace, and recreation after a delete yields a different uuid. -/
theorem uuid_changes_iff_recreated_witness :
    (read_since (applyOps sW1 [Op.tick, Op.write kTest [⟨"app2", 0⟩] none])
        kTest 0).uuid = some 0
      ∧ ∃ u ts s', write (delete sW1 kTest "bye") kTest [⟨"app1", 0⟩] none
            = (.ok u ts, s')
          ∧ u ≠ 0 ∧ (read_since s' kTest 0).uuid = some u := by
  have h := uuid_changes_iff_recreated sW1 kTest cW1
    [Op.tick, Op.write kTest [⟨"app2", 0⟩] none] "bye" [⟨"app1", 0⟩]
    (by decide) (by decide) (by decide)
  obtain ⟨u, ts, s', hw, hu, hr⟩ := h.2
  exact ⟨h.1 0, u, ts, s', hw, hu, hr 0⟩

/-- Claim C3: after a delete and before any recreating write, every read of
the collection returns the bare collection-deleted result and nothing else,
for as long as no write recreates it. -/
theorem deleted_until_recreated (s : ServerState) (k : CollKey) (r : String)
    (ops : List Op) (t : Nat)
    (hops : ∀ op ∈ ops, op.isWriteTo k = false) :
    read_since (applyOps (delete s k r) ops) k t = .collectionDeleted := by
  have h := applyOps_keeps_deleted (delete s k r) k ops hops
    (delete_lookup_self s k r)
  unfold read_since
  rw [h]

/-- Witness for C3: reads stay tombstoned across unrelated operations. -/
theorem deleted_until_recreated_witness :
    read_since (applyOps (delete sW1 kTest "well...")
        [Op.tick, Op.delete kTest "again", Op.write ("t@m.com", "other") [] none])
      kTest 7 = .collectionDeleted :=
  deleted_until_recreated sW1 kTest "well..."
    [Op.tick, Op.delete kTest "again", Op.write ("t@m.com", "other") [] none] 7
    (by decide)

/-- Claim C4: writing a set of records with distinct origins to a fresh
collection then reading since 0 returns exactly that set keyed by origin,
with every last_modified strictly positive and equal to the collection's
reported last_modified high-water mark. -/
theorem write_read_roundtrip (s : ServerState) (k : CollKey)
    (apps : List AppRecord) (hab : s.lookup k = .absent)
    (hnd : (apps.map AppRecord.origin).Nodup) :
    ∃ u ts s', write s k apps none = (.ok u ts, s')
      ∧ read_since s' k 0 = .data 0 ts (stamp apps ts) (some u)
      ∧ (stamp apps ts).map AppRecord.origin = apps.map AppRecord.origin
      ∧ (stamp apps ts).length = apps.length
      ∧ (∀ a ∈ stamp apps ts, 0 < a.last_modified ∧ a.last_modified = ts)
      ∧ ∃ c', s'.lookup k = .live c' ∧ c'.last_modified = ts := by
  have hlk : (writeFresh s k apps).2.lookup k
      = .live (writtenColl s.nextUuid (s.clock + 1) [] apps) := by
    simp [writeFresh, ServerState.lookup, lookupColl_store_self]
  refine ⟨s.nextUuid, s.clock + 1, (writeFresh s k apps).2, ?_, ?_,
    stamp_map_origin apps _, stamp_length apps _, ?_,
    writtenColl s.nextUuid (s.clock + 1) [] apps, hlk, rfl⟩
  · rw [write_absent_eq s k apps none hab]
    exact rfl
  · have hup : upsertAll [] (stamp apps (s.clock + 1)) = stamp apps (s.clock + 1) := by
      have h := upsertAll_of_disjoint [] (stamp apps (s.clock + 1)) (by simp)
        (by rw [stamp_map_origin]; exact hnd)
      simpa using h
    have happ : (writtenColl s.nextUuid (s.clock + 1) [] apps).apps
        = upsertAll [] (stamp apps (s.clock + 1)) := rfl
    have hfil : ((stamp apps (s.clock + 1)).filter
        fun a => decide (0 < a.last_modified)) = stamp apps (s.clock + 1) := by
      apply filter_true_self
      intro a ha
      have h1 := mem_stamp apps (s.clock + 1) a ha
      simp [h1]
    rw [read_since_live_eq _ _ _ hlk 0, happ, hup, hfil]
    exact rfl
  · intro a ha
    have h1 := mem_stamp apps (s.clock + 1) a ha
    exact ⟨by simp [h1], h1⟩

/-- Witness for C4: the test suite's two-record write to a fresh collection. -/
theorem write_read_roundtrip_witness :
    ∃ u ts s', write sEmpty kTest [⟨"app1", 9⟩, ⟨"app2", 9⟩] none = (.ok u ts, s')
      ∧ read_since s' kTest 0
          = .data 0 ts (stamp [⟨"app1", 9⟩, ⟨"app2", 9⟩] ts) (some u)
      ∧ (stamp [⟨"app1", 9⟩, ⟨"app2", 9⟩] ts).map AppRecord.origin
          = ["app1", "app2"]
      ∧ (stamp [⟨"app1", 9⟩, ⟨"app2", 9⟩] ts).length = 2
      ∧ (∀ a ∈ stamp [⟨"app1", 9⟩, ⟨"app2", 9⟩] ts,
          0 < a.last_modified ∧ a.last_modified = ts)
      ∧ ∃ c', s'.lookup kTest = .live c' ∧ c'.last_modified = ts :=
  write_read_roundtrip sEmpty kTest [⟨"app1", 9⟩, ⟨"app2", 9⟩] rfl (by decide)

/-- Claim C5: a read at the current time immediately after a successful
write returns an empty delta: write and read treat now consistently. -/
theorem read_now_after_write_empty (s : ServerState) (k : CollKey)
    (apps : List AppRecord) (lg : Option Nat) (u ts : Nat) (s' : ServerState)
    (hwf : s.WF) (hw : write s k apps lg = (.ok u ts, s')) :
    read_since s' k s'.clock = .data s'.clock s'.clock [] (some u) := by
  obtain ⟨hclk, c', hlk, hu, hlm, hbound⟩ := write_ok_shape s k apps lg u ts s' hwf hw
  rw [read_since_live_eq _ _ _ hlk s'.clock]
  have hfil : (c'.apps.filter fun a => decide (s'.clock < a.last_modified)) = [] := by
    apply filter_false_nil
    intro a ha
    have h1 := hbound a ha
    simp only [decide_eq_false_iff_not]
    rw [hclk]
    exact Nat.not_lt.mpr h1
  rw [hfil, hu]

/-- Witness for C5: after writing one record to the test collection, reading
since the new current time returns no applications. -/
theorem read_now_after_write_empty_witness :
    read_since sW1' kTest sW1'.clock = .data sW1'.clock sW1'.clock [] (some 0) :=
  read_now_after_write_empty sW1 kTest [⟨"b", 0⟩] none 0 6 sW1'
    (by decide) (by decide)

/-- Claim C6: reading a collection that never existed succeeds with an empty
application list, a since of 0 and an until no later than the current time,
rather than an error or a collection-deleted result. -/
theorem never_existed_read (s : ServerState) (k : CollKey) (t : Token)
    (cache : Option (List (String × Nat)))
    (hab : s.lookup k = .absent) (ht : t.valid = true) :
    (∃ u, read_since s k 0 = .data 0 u [] none ∧ u ≤ s.clock)
      ∧ (getCollection s cache (some t) k 0).status = 200 := by
  constructor
  · refine ⟨s.clock, ?_, Nat.le_refl _⟩
    unfold read_since
    rw [hab]
  · simp [getCollection, ht]

/-- Witness for C6: reading the never-written test collection. -/
theorem never_existed_read_witness :
    (∃ u, read_since sEmpty kTest 0 = .data 0 u [] none ∧ u ≤ sEmpty.clock)
      ∧ (getCollection sEmpty none (some tokTest) kTest 0).status = 200 :=
  never_existed_read sEmpty kTest tokTest none rfl rfl

/-- Claim C7: a backend-raised ServerError surfaces as 503 with a Retry-After
header taken verbatim from static configuration, whose default is "120"; in
particular POST /verify with the backend's verify broken. -/
theorem server_error_retry_after (cfg : Config) (a : Assertion) (aud : String) :
    (postVerify cfg true (some a) (some aud)).status = 503
      ∧ (postVerify cfg true (some a) (some aud)).headers
          = [("Retry-After", cfg.retry_after)]
      ∧ postVerify cfg true (some a) (some aud) = serverErrorResponse cfg
      ∧ defaultConfig.retry_after = "120" := by
  refine ⟨?_, ?_, ?_, rfl⟩ <;> simp [postVerify, serverErrorResponse]

/-- Claim C8: a missing or invalid credential is rejected with 401: POST
/verify with an invalid assertion signature or mismatched audience, and GET
of a collection without an authorization token. -/
theorem bad_credentials_rejected (cfg : Config) (a : Assertion) (aud : String)
    (s : ServerState) (cache : Option (List (String × Nat))) (k : CollKey)
    (since : Nat) (hbad : a.sigValid = false ∨ a.audience ≠ aud) :
    (postVerify cfg false (some a) (some aud)).status = 401
      ∧ (getCollection s cache none k since).status = 401 := by
  constructor
  · have hcond : (a.sigValid && decide (a.audience = aud)) = false := by
      rcases hbad with h1 | h2
      · simp [h1]
      · simp [h2]
    simp [postVerify, hcond]
  · simp [getCollection]

/-- Witness for C8: a bad-signature assertion and a tokenless GET. -/
theorem bad_credentials_rejected_witness :
    (postVerify defaultConfig false
        (some ⟨"t@m.com", "http://myapps.mozillalabs.com/", false⟩)
        (some "http://myapps.mozillalabs.com/")).status = 401
      ∧ (getCollection sW1 none none kTest 0).status = 401 :=
  bad_credentials_rejected defaultConfig
    ⟨"t@m.com", "http://myapps.mozillalabs.com/", false⟩
    "http://myapps.mozillalabs.com/" sW1 none kTest 0 (Or.inl rfl)

/-- Claim C9: GET /__heartbeat__ answers 200 with literal body OK exactly
when the backend health check succeeds. -/
theorem heartbeat_ok_iff (cfg : Config) (healthy : Bool) :
    ((heartbeat cfg healthy).status = 200
        ∧ (heartbeat cfg healthy).body = .text "OK")
      ↔ healthy = true := by
  cases healthy <;> simp [heartbeat, serverErrorResponse]

/-- Claim C10: with the advisory cache configured, reachable, and holding a
value under X-Sync-Poll, every authenticated GET of a collection carries the
X-Sync-Poll header with the decimal rendering of that value. -/
theorem poll_advisory_header (s : ServerState) (entries : List (String × Nat))
    (v : Nat) (t : Token) (k : CollKey) (since : Nat)
    (hc : cacheGet entries "X-Sync-Poll" = some v) (ht : t.valid = true) :
    (getCollection s (some entries) (some t) k since).status = 200
      ∧ ("X-Sync-Poll", toString v)
          ∈ (getCollection s (some entries) (some t) k since).headers := by
  constructor <;> simp [getCollection, ht, pollHeaders, hc]

/-- Witness for C10: caching 120 yields the header value "120". -/
theorem poll_advisory_header_witness :
    (getCollection sW1 (some [("X-Sync-Poll", 120)]) (some tokTest) kTest 0).status
        = 200
      ∧ ("X-Sync-Poll", "120")
          ∈ (getCollection sW1 (some [("X-Sync-Poll", 120)])
              (some tokTest) kTest 0).headers := by
  have h := poll_advisory_header sW1 [("X-Sync-Poll", 120)] 120 tokTest kTest 0
    (by decide) (by decide)
  have e : (toString (120 : Nat)) = "120" := by decide
  exact ⟨h.1, e ▸ h.2⟩

end AppSync
